import Mathlib

/-!
Verification of the media assembly pipeline of the youtube-shorts-agent
repository (file `agent/video_creator.py`).

Modelling conventions of the shallow embedding:
* durations are exact rationals (`ℚ`); the Python code computes with
  floats, which we model by exact arithmetic;
* Python `int(x)` on a non-negative value is the floor, modelled by
  `Int.toNat ∘ Rat.floor` (or `Nat` division where both operands are
  naturals);
* file paths are plain strings; the outcome of an external call
  (network request, opening a media file) that can raise an exception is
  passed in as an `Except`/`Option` value, and a Python `try/except`
  block becomes a `match` on that value;
* a media clip is tracked by the attributes the claims speak about:
  its duration, and for frames its width and height.
-/

namespace ShortsAgent

/-- Python `script.split()` in `_add_captions`: split on whitespace
runs, dropping empty pieces.  Stated over the string's character list
(`String.mk` of each maximal whitespace-free run, in order). -/
def pySplit (s : String) : List String :=
  ((s.data.splitOnP Char.isWhitespace).filter (fun g => g ≠ [])).map
    (fun g => String.mk g)

/-- Python `word.endswith(('.', '!', '?'))` in `_add_captions`: each
suffix is a single character, so this is a test on the word's last
character. -/
def endsTerminal (w : String) : Bool :=
  match w.data.getLast? with
  | some c => c = '.' || c = '!' || c = '?'
  | none => false

/-- The caption grouping loop of `_add_captions` (video_creator.py
lines 354-363): words are appended to `current`; the group is flushed
once it has at least 5 words or the word ends a sentence; a non-empty
remainder is flushed at the end.  Segments are kept as word lists; the
source joins each group with a single space right when flushing it. -/
def group_words : List String → List String → List (List String)
  | current, [] => if current = [] then [] else [current]
  | current, w :: ws =>
    let current' := current ++ [w]
    if 5 ≤ current'.length ∨ endsTerminal w = true then
      current' :: group_words [] ws
    else
      group_words current' ws

/-- The segment list produced by `_add_captions` for a script string. -/
def add_captions_segments (script : String) : List (List String) :=
  group_words [] (pySplit script)

/-- The `(start, duration)` window that `_add_captions` assigns to each
caption segment: `segment_duration = duration / len(segments)`, segment
`i` gets `with_start(i * segment_duration)` and
`with_duration(segment_duration)`. -/
def caption_windows (script : String) (duration : ℚ) : List (ℚ × ℚ) :=
  let segments := add_captions_segments script
  let segment_duration := duration / segments.length
  (List.range segments.length).map
    (fun i : ℕ => ((i : ℚ) * segment_duration, segment_duration))

/-- The time interval a `(start, duration)` caption window covers on
screen: `[start, start + duration)`. -/
def window_set (p : ℚ × ℚ) : Set ℚ :=
  Set.Ico p.1 (p.1 + p.2)

/-- The clip-collecting loop of `_create_base_video` (lines 293-312).
Each list entry is the outcome of `VideoFileClip(path)` plus the
normalizer on one path: `some d` for a successfully opened clip of
duration `d`, `none` when the `try` body raised and the loop hit
`continue`.  The loop breaks when the accumulated duration has reached
the target, and trims a clip to the remaining time
(`subclipped(0, remaining)`) when it is longer than that. -/
def gather_clips : List (Option ℚ) → ℚ → ℚ → List ℚ
  | [], _, _ => []
  | d? :: rest, target_duration, total_duration =>
    if target_duration ≤ total_duration then []
    else
      match d? with
      | none => gather_clips rest target_duration total_duration
      | some d =>
        let d' := if target_duration - total_duration < d
                  then target_duration - total_duration else d
        d' :: gather_clips rest target_duration (total_duration + d')

/-- Duration of the timeline `_create_base_video` returns: the gathered
clips are concatenated (`concatenate_videoclips`, or the single clip
itself), so the result's duration is their sum; with no usable clip the
function returns a `ColorClip` of duration `target_duration`. -/
def create_base_video (clip_opens : List (Option ℚ)) (target_duration : ℚ) : ℚ :=
  let clips := gather_clips clip_opens target_duration 0
  if clips = [] then target_duration else clips.sum

/-- `_create_fallback_backgrounds` (lines 270-289): writes one solid
`ColorClip` of the requested duration to `temp/bg_fallback.mp4` and
returns that single path.  Modelled as the written file's
`(path, duration)` pair; the function is total - it performs no network
work and synthesizes its clip unconditionally. -/
def create_fallback_backgrounds (duration : ℚ) : List (String × ℚ) :=
  [("bg_fallback.mp4", duration)]

/-- `_resize_and_crop` (lines 326-346) at the level of frame sizes:
`(w, h)` is the source clip's size, `(W, H)` the creator's target
resolution.  The ratio comparison is the source's
`clip_ratio > target_ratio` over exact rationals; `int(...)` on the
scaled side is natural floor division; `max(0, (new - tgt) // 2)` is
natural subtraction followed by division; `cropped(x1, y1, x2, y2)`
slices the frame array, so each output side is clamped to the scaled
frame (`min`), matching numpy slice semantics. -/
def resize_and_crop (w h W H : ℕ) : ℕ × ℕ :=
  let target_r : ℚ := (W : ℚ) / (H : ℚ)
  let clip_r : ℚ := (w : ℚ) / (h : ℚ)
  let new_w : ℕ := if target_r < clip_r then w * H / h else W
  let new_h : ℕ := if target_r < clip_r then H else h * W / w
  let x1 := (new_w - W) / 2
  let y1 := (new_h - H) / 2
  let x2 := x1 + W
  let y2 := y1 + H
  (min x2 new_w - x1, min y2 new_h - y1)

/-- An audio clip, tracked by its duration. -/
structure AudioClip where
  duration : ℚ
deriving DecidableEq

/-- `clip.subclipped(t0, t1)`: the sub-clip `[t0, t1)`, of duration
`t1 - t0`; raises (modelled by `none`) when the window does not fit
inside the clip. -/
def audio_subclipped (c : AudioClip) (t0 t1 : ℚ) : Option AudioClip :=
  if 0 ≤ t0 ∧ t0 ≤ t1 ∧ t1 ≤ c.duration then some ⟨t1 - t0⟩ else none

/-- `concatenate_audioclips`: total duration is the sum. -/
def concatenate_audioclips (cs : List AudioClip) : AudioClip :=
  ⟨(cs.map AudioClip.duration).sum⟩

/-- `CompositeAudioClip` duration: the latest end among the mixed
clips (each starts at 0 here). -/
def composite_audio_duration (cs : List AudioClip) : ℚ :=
  (cs.map AudioClip.duration).foldr max 0

/-- `loops_needed = int(voiceover.duration / music.duration) + 1`
(line 410); both durations are positive, so Python `int` truncation is
the floor. -/
def loops_needed (voDur musicDur : ℚ) : ℕ :=
  (⌊voDur / musicDur⌋).toNat + 1

/-- `_add_audio` (lines 400-423), restricted to the audio stream it
attaches.  `music?` is the clip behind `_get_background_music`'s path,
or `none` when that returned `None`.  A shorter music clip is looped
`loops_needed` times; the music is then trimmed to the narration's
duration and mixed with it.  The enclosing `try/except: pass` makes any
failure in the music branch fall back to the bare narration; volume
scaling (`with_volume_scaled(0.15)`) does not change durations and is
omitted. -/
def add_audio (voiceover : AudioClip) (music? : Option AudioClip) : AudioClip :=
  match music? with
  | none => voiceover
  | some music0 =>
    let music1 :=
      if music0.duration < voiceover.duration then
        concatenate_audioclips
          (List.replicate (loops_needed voiceover.duration music0.duration) music0)
      else music0
    match audio_subclipped music1 0 voiceover.duration with
    | some music2 => ⟨composite_audio_duration [voiceover, music2]⟩
    | none => voiceover

/-- `_get_background_music` (lines 425-442): `none` when the music
directory does not exist; otherwise a `random.choice` from the
niche-specific `.mp3` glob if non-empty, else from the glob over all
`.mp3` files, else
`none`.  The random draw is modelled by the index `r` reduced modulo
the list length. -/
def get_background_music (music_dir_exists : Bool)
    (niche_music all_music : List String) (r : ℕ) : Option String :=
  if music_dir_exists = false then none
  else if h : niche_music ≠ [] then
    some (niche_music.get ⟨r % niche_music.length,
      Nat.mod_lt _ (List.length_pos.mpr h)⟩)
  else if h' : all_music ≠ [] then
    some (all_music.get ⟨r % all_music.length,
      Nat.mod_lt _ (List.length_pos.mpr h')⟩)
  else none

/-- One `video_files` entry of a Pexels search hit. -/
structure VideoFile where
  link : String
  height : ℕ

/-- One video of a Pexels search response; `duration` already carries
the `video.get("duration", 10)` default. -/
structure PexelsVideo where
  video_files : List VideoFile
  duration : ℚ

/-- The parsed body of a successful Pexels search response. -/
structure SearchResponse where
  videos : List PexelsVideo

/-- The cache key `f"{search_term.replace(' ', '_')}_{clip_index}.mp4"`
of `_download_single_clip`. -/
def cache_key (search_term : String) (clip_index : ℕ) : String :=
  (search_term.replace " " "_") ++ "_" ++ toString clip_index ++ ".mp4"

/-- Quality selection of `_download_single_clip` (lines 206-216): sort
the candidate files by distance of their height from the target tier
(Python `sorted` is stable, as is `mergeSort`), take the first with
height at least 360; if none qualifies fall back to the first raw
candidate, if any. -/
def select_best_file (video : PexelsVideo) (fast_mode : Bool) : Option VideoFile :=
  let target_height : ℕ := if fast_mode then 480 else 720
  let sorted_files := video.video_files.mergeSort
    (fun a b => ((a.height : ℤ) - target_height).natAbs
              ≤ ((b.height : ℤ) - target_height).natAbs)
  match sorted_files.find? (fun vf => 360 ≤ vf.height) with
  | some vf => some vf
  | none => video.video_files.head?

/-- The `try` body of `_download_single_clip` (lines 186-233).
`search` is the combined outcome of `requests.get`,
`raise_for_status()` and `.json()` (`Except.error` when any of them
raised); `cached` tells whether the cache file for a key exists;
`download_ok` tells whether streaming a url to disk succeeded (`false`
models a raising `requests.get`).  `Except.error` is an escaping
exception. -/
def download_clip_body (search : Except String SearchResponse)
    (cached : String → Bool) (download_ok : String → Bool)
    (fast_mode : Bool) (search_term : String) (clip_index : ℕ) :
    Except String (Option String × ℚ) :=
  match search with
  | .error e => .error e
  | .ok resp =>
    match resp.videos with
    | [] => .ok (none, 0)
    | video :: _ =>
      match select_best_file video fast_mode with
      | none => .ok (none, 0)
      | some vf =>
        let key := cache_key search_term clip_index
        if cached key then .ok (some key, video.duration)
        else if download_ok vf.link then .ok (some key, video.duration)
        else .error "download failed"

/-- `_download_single_clip` itself: the whole body sits in one
`try/except` whose handler returns `(None, 0)`, so no exception leaves
the function. -/
def download_single_clip (search : Except String SearchResponse)
    (cached : String → Bool) (download_ok : String → Bool)
    (fast_mode : Bool) (search_term : String) (clip_index : ℕ) :
    Option String × ℚ :=
  match download_clip_body search cached download_ok fast_mode search_term clip_index with
  | .ok r => r
  | .error _ => (none, 0)

/-- The `as_completed` consumption loop of `_get_stock_footage_parallel`
(lines 254-262) over the futures' results in completion order: a
successful result's path is appended and its duration accumulated, then
the loop breaks once `total_duration >= target_duration`. -/
def collect_clips : List (Option String × ℚ) → ℚ → ℚ → List String
  | [], _, _ => []
  | (some p, d) :: rest, target_duration, total_duration =>
    if target_duration ≤ total_duration + d then [p]
    else p :: collect_clips rest target_duration (total_duration + d)
  | (none, _) :: rest, target_duration, total_duration =>
    if target_duration ≤ total_duration then []
    else collect_clips rest target_duration total_duration

/-- `_get_stock_footage_parallel` (lines 238-268): consume the results
with budget `duration + 5`, and if no clip at all was collected return
the fallback background instead.  The boolean records whether the
fallback path was taken. -/
def get_stock_footage_parallel (results : List (Option String × ℚ))
    (duration : ℚ) : List String × Bool :=
  let clips := collect_clips results (duration + 5) 0
  if clips = [] then ((create_fallback_backgrounds duration).map Prod.fst, true)
  else (clips, false)

/-- How many futures the `as_completed` loop consumes before leaving
(the break fires after a result is processed, so the breaking result is
counted). -/
def accepted_results_count : List (Option String × ℚ) → ℚ → ℚ → ℕ
  | [], _, _ => 0
  | (p?, d) :: rest, target_duration, total_duration =>
    let total' := match p? with
      | some _ => total_duration + d
      | none => total_duration
    if target_duration ≤ total' then 1
    else 1 + accepted_results_count rest target_duration total'

/-- How many submitted downloads run to completion.  The stage runs
inside `with ThreadPoolExecutor(...)`, whose exit calls
`shutdown(wait=True)` without `cancel_futures`, so every submitted task
executes fully even when the consumption loop broke early: all of them. -/
def completed_downloads_count (results : List (Option String × ℚ)) : ℕ :=
  results.length

/-- Source-duration contribution of the successful entries of a result
list (what the loop's `total_duration` accumulates). -/
def results_duration (results : List (Option String × ℚ)) : ℚ :=
  (results.map (fun r => match r.1 with
    | some _ => r.2
    | none => 0)).sum

/-! ### Clip normalizer -/

/-- C3: for every source clip with positive width `w` and height `h`
and positive target `(W, H)`, `_resize_and_crop` returns a clip of
exactly width `W` and height `H`.  The already-at-target case
`w = W, h = H` is an instance, so normalization is idempotent on
resolution. -/
theorem resize_and_crop_exact (w h W H : ℕ)
    (hw : 0 < w) (hh : 0 < h) (hW : 0 < W) (hH : 0 < H) :
    resize_and_crop w h W H = (W, H) := by
  simp only [resize_and_crop]
  split_ifs with hr
  · -- wider than target: scaled height is exactly H, scaled width ≥ W
    have hcross : W * h ≤ w * H := by
      have h1 : (W : ℚ) * h < w * H :=
        (div_lt_div_iff₀ (by exact_mod_cast hH) (by exact_mod_cast hh)).mp hr
      exact_mod_cast h1.le
    have hWle : W ≤ w * H / h := (Nat.le_div_iff_mul_le hh).mpr hcross
    generalize w * H / h = n at hWle ⊢
    simp only [Prod.mk.injEq]
    exact ⟨by omega, by omega⟩
  · -- taller than (or equal to) target: scaled width is exactly W
    have hcross : H * w ≤ h * W := by
      have h1 : (w : ℚ) * H ≤ W * h := by
        have h0 := not_lt.mp hr
        exact_mod_cast (div_le_div_iff₀ (by exact_mod_cast hh) (by exact_mod_cast hH)).mp h0
      have h2 : w * H ≤ W * h := by exact_mod_cast h1
      calc H * w = w * H := Nat.mul_comm H w
        _ ≤ W * h := h2
        _ = h * W := Nat.mul_comm W h
    have hHle : H ≤ h * W / w := (Nat.le_div_iff_mul_le hw).mpr hcross
    generalize h * W / w = m at hHle ⊢
    simp only [Prod.mk.injEq]
    exact ⟨by omega, by omega⟩

/-- Witness for `resize_and_crop_exact`: a 4:3 landscape source against
the 9:16 target used in fast mode. -/
theorem resize_and_crop_exact_witness :
    resize_and_crop 640 480 720 1280 = (720, 1280) :=
  resize_and_crop_exact 640 480 720 1280 (by norm_num) (by norm_num)
    (by norm_num) (by norm_num)

/-! ### Timeline composer -/

/-- Once the accumulated duration has reached the target the loop of
`_create_base_video` breaks immediately. -/
lemma gather_clips_of_le (clip_opens : List (Option ℚ)) (target total : ℚ)
    (h : target ≤ total) : gather_clips clip_opens target total = [] := by
  cases clip_opens with
  | nil => rfl
  | cons d? rest => simp [gather_clips, h]

/-- When the successfully opened clips' total source duration still
covers the remaining time, the gathered (trimmed) clips sum to exactly
the remaining time. -/
lemma gather_clips_sum (clip_opens : List (Option ℚ)) :
    ∀ (target total : ℚ), total ≤ target →
      target ≤ clip_opens.reduceOption.sum + total →
      (gather_clips clip_opens target total).sum = target - total := by
  induction clip_opens with
  | nil =>
    intro target total h1 h2
    simp only [List.reduceOption_nil, List.sum_nil, zero_add] at h2
    simp [gather_clips, le_antisymm h2 h1]
  | cons d? rest ih =>
    intro target total h1 h2
    by_cases hbrk : target ≤ total
    · rw [gather_clips_of_le _ _ _ hbrk]
      simp [le_antisymm h1 hbrk]
    · push_neg at hbrk
      cases d? with
      | none =>
        simp only [gather_clips, if_neg (not_le.mpr hbrk)]
        apply ih target total hbrk.le
        simpa using h2
      | some d =>
        simp only [gather_clips, if_neg (not_le.mpr hbrk)]
        simp only [List.reduceOption_cons_of_some, List.sum_cons] at h2
        by_cases htrim : target - total < d
        · simp only [if_pos htrim, List.sum_cons]
          rw [gather_clips_of_le _ _ _ (by linarith)]
          simp
        · simp only [if_neg htrim, List.sum_cons]
          push_neg at htrim
          rw [ih target (total + d) (by linarith) (by linarith)]
          ring


/-- C1 counterexample: the composer does not reach the target duration
when the supplied footage is too short.  A single 1-second clip against
a narration of 10 seconds (which is `> 0`) yields a timeline of total
duration 1, not `≥ 10`: the claim as stated fails for this list of
footage clips. -/
theorem base_video_short_footage_counterexample :
    (0 : ℚ) < 10 ∧ create_base_video [some 1] 10 < 10 := by
  constructor
  · norm_num
  · norm_num [create_base_video, gather_clips]

/-- C1 (amended): for every narration duration `Dn ≥ 0` and every clip
list whose successfully opened clips either cover `Dn` in total source
duration or are absent altogether, the timeline `_create_base_video`
returns has total duration `≥ Dn` (the insufficient-footage case ruled
out by the counterexample is the only failure mode). -/
theorem create_base_video_meets_target (clip_opens : List (Option ℚ))
    (Dn : ℚ) (h0 : 0 ≤ Dn)
    (h : Dn ≤ clip_opens.reduceOption.sum ∨ clip_opens.reduceOption = []) :
    Dn ≤ create_base_video clip_opens Dn := by
  rcases h with h | h
  · have hsum : (gather_clips clip_opens Dn 0).sum = Dn - 0 :=
      gather_clips_sum clip_opens Dn 0 h0 (by simpa using h)
    unfold create_base_video
    by_cases hnil : gather_clips clip_opens Dn 0 = []
    · simp [hnil]
    · rw [if_neg hnil, hsum]
      simp
  · have hnone : gather_clips clip_opens Dn 0 = [] := by
      clear h0
      induction clip_opens with
      | nil => rfl
      | cons d? rest ih =>
        cases d? with
        | none =>
          simp only [List.reduceOption_cons_of_none] at h
          by_cases hbrk : Dn ≤ (0 : ℚ)
          · exact gather_clips_of_le _ _ _ hbrk
          · simp only [gather_clips, if_neg hbrk]
            exact ih h
        | some d => simp at h
    unfold create_base_video
    simp [hnone]

/-- Witness for `create_base_video_meets_target`: two clips of source
durations 7 and 5 against a 10-second narration. -/
theorem create_base_video_meets_target_witness :
    (10 : ℚ) ≤ create_base_video [some 7, some 5] 10 :=
  create_base_video_meets_target [some 7, some 5] 10 (by norm_num)
    (Or.inl (by norm_num [List.reduceOption_cons_of_some]))

/-- All-failure footage results collect no clip at all. -/
lemma collect_clips_of_all_none (results : List (Option String × ℚ)) :
    ∀ (target total : ℚ), (∀ r ∈ results, r.1 = none) →
      collect_clips results target total = [] := by
  induction results with
  | nil => intro target total _; rfl
  | cons r rest ih =>
    intro target total hall
    obtain ⟨p?, d⟩ := r
    have hp : p? = none := hall (p?, d) (List.mem_cons_self _ _)
    subst hp
    by_cases hbrk : target ≤ total
    · simp [collect_clips, hbrk]
    · simp only [collect_clips, if_neg hbrk]
      exact ih target total (fun r hr => hall r (List.mem_cons_of_mem _ hr))

/-- C5: when footage acquisition yields zero clips (every download
result failed), `_get_stock_footage_parallel` takes the fallback path
and returns the single solid-background clip, that clip has duration
exactly `Dn`, and the composer applied to it returns a timeline of
duration exactly `Dn`.  Every function on this path is total in the
model: the fallback itself performs no fallible work. -/
theorem fallback_path_exact_duration (Dn : ℚ) (hD : 0 < Dn)
    (results : List (Option String × ℚ))
    (hall : ∀ r ∈ results, r.1 = none) :
    get_stock_footage_parallel results Dn = (["bg_fallback.mp4"], true) ∧
    create_fallback_backgrounds Dn = [("bg_fallback.mp4", Dn)] ∧
    create_base_video ((create_fallback_backgrounds Dn).map (fun c => some c.2)) Dn
      = Dn := by
  refine ⟨?_, rfl, ?_⟩
  · unfold get_stock_footage_parallel
    rw [collect_clips_of_all_none results (Dn + 5) 0 hall]
    rfl
  · simp only [create_fallback_backgrounds, List.map_cons, List.map_nil]
    unfold create_base_video
    have h1 : gather_clips [some Dn] Dn 0 = [Dn] := by
      simp only [gather_clips, if_neg (not_le.mpr hD), sub_zero,
        if_neg (lt_irrefl Dn)]
    rw [h1]
    simp

/-- Witness for `fallback_path_exact_duration`: a 30-second narration
with both download results failed. -/
theorem fallback_path_exact_duration_witness :
    create_base_video
      ((create_fallback_backgrounds 30).map (fun c => some c.2)) 30 = 30 :=
  (fallback_path_exact_duration 30 (by norm_num) [(none, 0), (none, 0)]
    (by simp)).2.2

/-! ### Audio mixer -/

/-- Looping the music `loops_needed` times reaches at least the
narration duration, so the subsequent trim to `[0, Dn)` is valid. -/
lemma loops_needed_reaches (Dn Dm : ℚ) (hn : 0 < Dn) (hm : 0 < Dm) :
    Dn ≤ (concatenate_audioclips
      (List.replicate (loops_needed Dn Dm) ⟨Dm⟩)).duration := by
  have hfl : (0 : ℤ) ≤ ⌊Dn / Dm⌋ := Int.floor_nonneg.mpr (by positivity)
  have hcast : ((loops_needed Dn Dm : ℕ) : ℚ) = (⌊Dn / Dm⌋ : ℚ) + 1 := by
    unfold loops_needed
    push_cast
    congr 1
    exact_mod_cast congrArg (fun z : ℤ => (z : ℚ)) (Int.toNat_of_nonneg hfl)
  have hlt : Dn / Dm < (⌊Dn / Dm⌋ : ℚ) + 1 := Int.lt_floor_add_one _
  have hdur : (concatenate_audioclips
      (List.replicate (loops_needed Dn Dm) (⟨Dm⟩ : AudioClip))).duration
      = (loops_needed Dn Dm : ℚ) * Dm := by
    simp [concatenate_audioclips, List.map_replicate, List.sum_replicate,
      nsmul_eq_mul]
  rw [hdur, hcast]
  calc Dn = Dn / Dm * Dm := (div_mul_cancel₀ Dn (ne_of_gt hm)).symm
    _ ≤ ((⌊Dn / Dm⌋ : ℚ) + 1) * Dm := by
        exact mul_le_mul_of_nonneg_right hlt.le hm.le

/-- With a music asset present the mixed stream's duration is exactly
the narration duration, whether the music is shorter (looped then
trimmed), equal, or longer (trimmed). -/
lemma add_audio_some_duration (Dn Dm : ℚ) (hn : 0 < Dn) (hm : 0 < Dm) :
    (add_audio ⟨Dn⟩ (some ⟨Dm⟩)).duration = Dn := by
  unfold add_audio
  by_cases hshort : Dm < Dn
  · have hreach := loops_needed_reaches Dn Dm hn hm
    simp only [hshort, if_pos hshort]
    rw [audio_subclipped, if_pos ⟨le_refl 0, hn.le, hreach⟩]
    simp [composite_audio_duration, sub_zero, max_eq_left hn.le,
      max_eq_left (le_refl Dn)]
  · push_neg at hshort
    simp only [if_neg (not_lt.mpr hshort)]
    rw [audio_subclipped, if_pos ⟨le_refl 0, hn.le, by simpa using hshort⟩]
    simp [composite_audio_duration, sub_zero, max_eq_left hn.le,
      max_eq_left (le_refl Dn)]

/-- C4: for every narration of duration `Dn > 0`, `_add_audio` produces
an audio stream of duration exactly `Dn` in all four cases: no music,
music of any positive duration `Dm` (covering `Dm = Dn`, `Dm < Dn`
looped by repeat-concatenation until `≥ Dn` then trimmed, and
`Dm > Dn` trimmed), and in particular a music asset of duration
`Dn / 3`. -/
theorem add_audio_duration_eq (Dn Dm : ℚ) (hn : 0 < Dn) (hm : 0 < Dm) :
    (add_audio ⟨Dn⟩ none).duration = Dn ∧
    Dn ≤ (concatenate_audioclips
      (List.replicate (loops_needed Dn Dm) ⟨Dm⟩)).duration ∧
    (add_audio ⟨Dn⟩ (some ⟨Dm⟩)).duration = Dn ∧
    (add_audio ⟨Dn⟩ (some ⟨Dn / 3⟩)).duration = Dn :=
  ⟨rfl, loops_needed_reaches Dn Dm hn hm, add_audio_some_duration Dn Dm hn hm,
    add_audio_some_duration Dn (Dn / 3) hn (by positivity)⟩

/-- Witness for `add_audio_duration_eq`: 6-second narration mixed with
a 2-second music asset (`Dm = Dn / 3`). -/
theorem add_audio_duration_eq_witness :
    (add_audio ⟨6⟩ (some ⟨2⟩)).duration = 6 :=
  (add_audio_duration_eq 6 2 (by norm_num) (by norm_num)).2.2.1

/-- C7: when no background-music asset is configured for the niche - the
music directory is missing, or both the niche-specific glob and the
any-music glob are empty - `_get_background_music` returns `None` and
`_add_audio` attaches the narration track unchanged. -/
theorem no_music_narration_unchanged (music_dir_exists : Bool)
    (niche_music all_music : List String) (r : ℕ)
    (h : music_dir_exists = false ∨ (niche_music = [] ∧ all_music = [])) :
    get_background_music music_dir_exists niche_music all_music r = none ∧
    ∀ voiceover : AudioClip, add_audio voiceover none = voiceover := by
  refine ⟨?_, fun _ => rfl⟩
  rcases h with h | ⟨h1, h2⟩
  · simp [get_background_music, h]
  · simp [get_background_music, h1, h2]

/-- Witness for `no_music_narration_unchanged`: the music directory
exists but holds no `.mp3` at all. -/
theorem no_music_narration_unchanged_witness :
    get_background_music true [] [] 0 = none :=
  (no_music_narration_unchanged true [] [] 0 (Or.inr ⟨rfl, rfl⟩)).1

/-! ### Caption segmenter -/

/-- The grouping loop neither drops, duplicates nor reorders words:
flattening the produced segments restores `current ++ ws`. -/
lemma group_words_flatten (ws : List String) :
    ∀ current : List String, (group_words current ws).flatten = current ++ ws := by
  induction ws with
  | nil =>
    intro current
    by_cases h : current = []
    · simp [group_words, h]
    · simp [group_words, h]
  | cons w ws ih =>
    intro current
    simp only [group_words]
    by_cases h : 5 ≤ (current ++ [w]).length ∨ endsTerminal w = true
    · simp only [if_pos h, List.flatten_cons, ih]
      simp
    · simp only [if_neg h, ih]
      simp

/-- Every segment the grouping loop flushes carries at least one word. -/
lemma group_words_mem_ne_nil (ws : List String) :
    ∀ (current : List String), ∀ seg ∈ group_words current ws, seg ≠ [] := by
  induction ws with
  | nil =>
    intro current seg hmem
    by_cases h : current = []
    · simp [group_words, h] at hmem
    · simp only [group_words, if_neg h, List.mem_singleton] at hmem
      subst hmem; exact h
  | cons w ws ih =>
    intro current seg hmem
    simp only [group_words] at hmem
    by_cases h : 5 ≤ (current ++ [w]).length ∨ endsTerminal w = true
    · rw [if_pos h] at hmem
      rcases List.mem_cons.mp hmem with rfl | hmem
      · simp
      · exact ih [] seg hmem
    · rw [if_neg h] at hmem
      exact ih (current ++ [w]) seg hmem

/-- The grouping loop never emits a segment of more than 5 words, as
long as the running group holds at most 4 words (it always does: it is
flushed the moment it reaches 5). -/
lemma group_words_le_five (ws : List String) :
    ∀ current : List String, current.length ≤ 4 →
      ∀ seg ∈ group_words current ws, seg.length ≤ 5 := by
  induction ws with
  | nil =>
    intro current hlen seg hmem
    by_cases h : current = []
    · simp [group_words, h] at hmem
    · simp only [group_words, if_neg h, List.mem_singleton] at hmem
      subst hmem; omega
  | cons w ws ih =>
    intro current hlen seg hmem
    simp only [group_words] at hmem
    by_cases h : 5 ≤ (current ++ [w]).length ∨ endsTerminal w = true
    · rw [if_pos h] at hmem
      rcases List.mem_cons.mp hmem with rfl | hmem
      · simp only [List.length_append, List.length_singleton]
        omega
      · exact ih [] (by norm_num) seg hmem
    · rw [if_neg h] at hmem
      push_neg at h
      refine ih (current ++ [w]) ?_ seg hmem
      have := h.1
      simp only [List.length_append, List.length_singleton] at this ⊢
      omega

/-- A run of five words, none of the first four sentence-terminal, is
flushed as one segment of exactly those five words (the fifth word
triggers the size-5 flush whatever its punctuation). -/
lemma group_words_chunk_five (w₁ w₂ w₃ w₄ w₅ : String) (ws : List String)
    (h1 : endsTerminal w₁ = false) (h2 : endsTerminal w₂ = false)
    (h3 : endsTerminal w₃ = false) (h4 : endsTerminal w₄ = false) :
    group_words [] (w₁ :: w₂ :: w₃ :: w₄ :: w₅ :: ws)
      = [w₁, w₂, w₃, w₄, w₅] :: group_words [] ws := by
  simp [group_words, h1, h2, h3, h4]

/-- C10: for every script, the caption segmentation is an ordered
partition of the script's word sequence: every segment is non-empty and
the segments flatten back, in order, to exactly the whitespace-split
word list of the script. -/
theorem caption_segments_partition_words (script : String) :
    (∀ seg ∈ add_captions_segments script, seg ≠ []) ∧
    (add_captions_segments script).flatten = pySplit script := by
  constructor
  · exact group_words_mem_ne_nil (pySplit script) []
  · simpa using group_words_flatten (pySplit script) []

/-- Witness for `caption_segments_partition_words` at a concrete
script. -/
theorem caption_segments_partition_words_witness :
    (add_captions_segments "stay hungry. stay foolish").flatten
      = pySplit "stay hungry. stay foolish" :=
  (caption_segments_partition_words "stay hungry. stay foolish").2

/-- C6: every caption segment holds at most 5 words, and a script of
exactly 20 words with no sentence-terminal punctuation among the first
19 is segmented into exactly 4 segments of 5 words each. -/
theorem caption_segments_bound_and_twenty :
    (∀ script : String, ∀ seg ∈ add_captions_segments script, seg.length ≤ 5) ∧
    (∀ (script : String)
       (w₁ w₂ w₃ w₄ w₅ w₆ w₇ w₈ w₉ w₁₀ w₁₁ w₁₂ w₁₃ w₁₄ w₁₅
        w₁₆ w₁₇ w₁₈ w₁₉ w₂₀ : String),
       pySplit script = [w₁, w₂, w₃, w₄, w₅, w₆, w₇, w₈, w₉, w₁₀,
         w₁₁, w₁₂, w₁₃, w₁₄, w₁₅, w₁₆, w₁₇, w₁₈, w₁₉, w₂₀] →
       endsTerminal w₁ = false → endsTerminal w₂ = false →
       endsTerminal w₃ = false → endsTerminal w₄ = false →
       endsTerminal w₅ = false → endsTerminal w₆ = false →
       endsTerminal w₇ = false → endsTerminal w₈ = false →
       endsTerminal w₉ = false → endsTerminal w₁₀ = false →
       endsTerminal w₁₁ = false → endsTerminal w₁₂ = false →
       endsTerminal w₁₃ = false → endsTerminal w₁₄ = false →
       endsTerminal w₁₅ = false → endsTerminal w₁₆ = false →
       endsTerminal w₁₇ = false → endsTerminal w₁₈ = false →
       endsTerminal w₁₉ = false →
       add_captions_segments script =
         [[w₁, w₂, w₃, w₄, w₅], [w₆, w₇, w₈, w₉, w₁₀],
          [w₁₁, w₁₂, w₁₃, w₁₄, w₁₅], [w₁₆, w₁₇, w₁₈, w₁₉, w₂₀]]) := by
  constructor
  · intro script seg hmem
    exact group_words_le_five (pySplit script) [] (by norm_num) seg hmem
  · intro script w₁ w₂ w₃ w₄ w₅ w₆ w₇ w₈ w₉ w₁₀ w₁₁ w₁₂ w₁₃ w₁₄ w₁₅
      w₁₆ w₁₇ w₁₈ w₁₉ w₂₀ hsplit h1 h2 h3 h4 h5 h6 h7 h8 h9 h10 h11 h12
      h13 h14 h15 h16 h17 h18 h19
    unfold add_captions_segments
    rw [hsplit,
      group_words_chunk_five w₁ w₂ w₃ w₄ w₅ _ h1 h2 h3 h4,
      group_words_chunk_five w₆ w₇ w₈ w₉ w₁₀ _ h6 h7 h8 h9,
      group_words_chunk_five w₁₁ w₁₂ w₁₃ w₁₄ w₁₅ _ h11 h12 h13 h14,
      group_words_chunk_five w₁₆ w₁₇ w₁₈ w₁₉ w₂₀ _ h16 h17 h18 h19]
    rfl

/-- Witness for `caption_segments_bound_and_twenty`: a concrete
20-word script with no terminal punctuation. -/
theorem caption_segments_bound_and_twenty_witness :
    add_captions_segments
        "w w w w w w w w w w w w w w w w w w w w" =
      [["w", "w", "w", "w", "w"], ["w", "w", "w", "w", "w"],
       ["w", "w", "w", "w", "w"], ["w", "w", "w", "w", "w"]] :=
  caption_segments_bound_and_twenty.2
    "w w w w w w w w w w w w w w w w w w w w"
    "w" "w" "w" "w" "w" "w" "w" "w" "w" "w"
    "w" "w" "w" "w" "w" "w" "w" "w" "w" "w"
    (by decide) (by decide) (by decide) (by decide) (by decide)
    (by decide) (by decide) (by decide) (by decide) (by decide)
    (by decide) (by decide) (by decide) (by decide) (by decide)
    (by decide) (by decide) (by decide) (by decide) (by decide)

/-- A non-empty word list yields a non-empty segment list. -/
lemma add_captions_segments_ne_nil (script : String)
    (hw : pySplit script ≠ []) : add_captions_segments script ≠ [] := by
  intro hnil
  apply hw
  have h := group_words_flatten (pySplit script) []
  rw [show group_words [] (pySplit script) = add_captions_segments script
    from rfl, hnil] at h
  simpa using h.symm

/-- The `i`-th caption window is `(i * (D / N), D / N)`. -/
lemma caption_windows_get (script : String) (D : ℚ) (i : ℕ)
    (hi : i < (caption_windows script D).length) :
    (caption_windows script D).get ⟨i, hi⟩ =
      ((i : ℚ) * (D / (add_captions_segments script).length),
       D / (add_captions_segments script).length) := by
  simp only [caption_windows, List.get_eq_getElem, List.getElem_map,
    List.getElem_range]

/-- Folding union over the first `n` equal-width windows yields the
interval `[0, n*c)` (joined with whatever the fold started from). -/
lemma foldr_union_windows (c : ℚ) (hc : 0 ≤ c) :
    ∀ (n : ℕ) (S : Set ℚ),
      (((List.range n).map (fun i : ℕ => ((i : ℚ) * c, c))).map window_set).foldr
          (· ∪ ·) S
        = Set.Ico 0 ((n : ℚ) * c) ∪ S := by
  intro n
  induction n with
  | zero =>
    intro S
    simp [Set.Ico_self]
  | succ n ih =>
    intro S
    rw [List.range_succ, List.map_append, List.map_append,
      List.foldr_append]
    simp only [List.map_cons, List.map_nil, List.foldr_cons, List.foldr_nil]
    rw [ih (window_set ((n : ℚ) * c, c) ∪ S), ← Set.union_assoc]
    have h1 : window_set ((n : ℚ) * c, c) = Set.Ico ((n : ℚ) * c) (((n : ℚ) + 1) * c) := by
      unfold window_set
      norm_num
      ring_nf
    rw [h1, Set.Ico_union_Ico_eq_Ico (by positivity)
      (by nlinarith)]
    push_cast
    ring_nf

/-- C2: for every script with at least one word and every duration
`Dn > 0`, `_add_captions` assigns segment `i` the window
`[i*Dn/N, (i+1)*Dn/N)` for `N` the segment count; the windows are
contiguous (each starts where the previous one ends), pairwise
non-overlapping, and their union is exactly the narration span
(as half-open windows, `[0, Dn)`, matching the assigned windows; the
single endpoint `Dn` belongs to no window). -/
theorem caption_windows_cover (script : String) (D : ℚ) (hD : 0 < D)
    (hw : pySplit script ≠ []) :
    0 < (add_captions_segments script).length ∧
    (caption_windows script D).length = (add_captions_segments script).length ∧
    (∀ i (hi : i < (caption_windows script D).length),
      (caption_windows script D).get ⟨i, hi⟩ =
        ((i : ℚ) * (D / (add_captions_segments script).length),
         D / (add_captions_segments script).length)) ∧
    List.Chain' (fun p q => q.1 = p.1 + p.2) (caption_windows script D) ∧
    List.Pairwise (fun p q => Disjoint (window_set p) (window_set q))
      (caption_windows script D) ∧
    ((caption_windows script D).map window_set).foldr (· ∪ ·) ∅
      = Set.Ico 0 D := by
  have hN : 0 < (add_captions_segments script).length :=
    List.length_pos.mpr (add_captions_segments_ne_nil script hw)
  have hc : 0 < D / (add_captions_segments script).length := by positivity
  refine ⟨hN, by simp [caption_windows], caption_windows_get script D,
    ?_, ?_, ?_⟩
  · rw [List.chain'_iff_get]
    intro i hlen
    rw [caption_windows_get script D i (by omega),
      caption_windows_get script D (i + 1) (by omega)]
    push_cast
    ring
  · unfold caption_windows
    rw [List.pairwise_map]
    have hrange : List.Pairwise (· < ·)
        (List.range (add_captions_segments script).length) :=
      List.pairwise_lt_range _
    refine hrange.imp ?_
    intro i j hij
    rw [Set.disjoint_left]
    intro x hxi hxj
    simp only [window_set, Set.mem_Ico] at hxi hxj
    have hstep : (i : ℚ) * (D / (add_captions_segments script).length)
        + D / (add_captions_segments script).length
        ≤ (j : ℚ) * (D / (add_captions_segments script).length) := by
      have hij1 : ((i : ℚ) + 1) ≤ (j : ℚ) := by exact_mod_cast hij
      nlinarith
    linarith [hxi.2, hxj.1]
  · unfold caption_windows
    rw [foldr_union_windows _ hc.le _ ∅, Set.union_empty]
    rw [mul_comm, div_mul_cancel₀ D
      (Nat.cast_ne_zero.mpr (Nat.pos_iff_ne_zero.mp hN))]

/-- Witness for `caption_windows_cover`: a three-word script over a
6-second narration. -/
theorem caption_windows_cover_witness :
    0 < (add_captions_segments "from zero to one").length :=
  (caption_windows_cover "from zero to one" 6 (by norm_num) (by decide)).1

/-! ### Footage acquirer -/

/-- As long as the budget was not already met, the consumption loop
collects no clip exactly when every download result failed. -/
lemma collect_clips_nil_iff (results : List (Option String × ℚ)) :
    ∀ (target total : ℚ), total < target →
      (collect_clips results target total = [] ↔
        ∀ r ∈ results, r.1 = none) := by
  induction results with
  | nil =>
    intro target total _
    simp [collect_clips]
  | cons r rest ih =>
    intro target total hlt
    obtain ⟨p?, d⟩ := r
    cases p? with
    | some p =>
      constructor
      · intro hnil
        exfalso
        by_cases hbrk : target ≤ total + d
        · simp [collect_clips, hbrk] at hnil
        · simp [collect_clips, hbrk] at hnil
      · intro hall
        have := hall (some p, d) (List.mem_cons_self _ _)
        simp at this
    | none =>
      simp only [collect_clips, if_neg (not_le.mpr hlt)]
      rw [ih target total hlt]
      constructor
      · intro hall r hr
        rcases List.mem_cons.mp hr with rfl | hr
        · rfl
        · exact hall r hr
      · intro hall r hr
        exact hall r (List.mem_cons_of_mem _ hr)

/-- C8: no single download failure escapes the acquisition stage.
`_download_single_clip` returns a value - `(path, duration)` or
`(None, 0)` - in every case: when the search request / status check /
JSON decode raised, when the result set is empty, and when every
download attempt raised with nothing cached; the function never lets an
exception propagate (its whole body is guarded by `try/except` that
returns `(None, 0)`).  Only total failure across all results sends
`_get_stock_footage_parallel` to the fallback path. -/
theorem download_failure_never_propagates
    (cached download_ok : String → Bool) (fast_mode : Bool)
    (term : String) (idx : ℕ) (D : ℚ) (hD : 0 < D)
    (results : List (Option String × ℚ)) :
    (∀ e : String,
      download_single_clip (.error e) cached download_ok fast_mode term idx
        = (none, 0)) ∧
    (∀ resp : SearchResponse, resp.videos = [] →
      download_single_clip (.ok resp) cached download_ok fast_mode term idx
        = (none, 0)) ∧
    (∀ (search : Except String SearchResponse)
       (cached' download_ok' : String → Bool),
      (∀ k, cached' k = false) → (∀ u, download_ok' u = false) →
      download_single_clip search cached' download_ok' fast_mode term idx
        = (none, 0)) ∧
    (∀ search : Except String SearchResponse,
      download_single_clip search cached download_ok fast_mode term idx
          = (none, 0) ∨
      ∃ p dur,
        download_single_clip search cached download_ok fast_mode term idx
          = (some p, dur)) ∧
    ((get_stock_footage_parallel results D).2 = true ↔
      ∀ r ∈ results, r.1 = none) := by
  refine ⟨fun e => rfl, ?_, ?_, ?_, ?_⟩
  · intro resp hresp
    obtain ⟨vids⟩ := resp
    simp only at hresp
    subst hresp
    rfl
  · intro search cached' download_ok' hc hd
    cases search with
    | error e => rfl
    | ok resp =>
      obtain ⟨vids⟩ := resp
      cases vids with
      | nil => rfl
      | cons video rest =>
        simp only [download_single_clip, download_clip_body]
        cases hbest : select_best_file video fast_mode with
        | none => simp [hbest]
        | some vf => simp [hbest, hc, hd]
  · intro search
    cases search with
    | error e => exact Or.inl rfl
    | ok resp =>
      obtain ⟨vids⟩ := resp
      cases vids with
      | nil => exact Or.inl rfl
      | cons video rest =>
        simp only [download_single_clip, download_clip_body]
        cases hbest : select_best_file video fast_mode with
        | none => exact Or.inl (by simp [hbest])
        | some vf =>
          by_cases hck : cached (cache_key term idx) = true
          · exact Or.inr ⟨cache_key term idx, video.duration, by simp [hbest, hck]⟩
          · by_cases hdl : download_ok vf.link = true
            · exact Or.inr ⟨cache_key term idx, video.duration,
                by simp [hbest, hck, hdl]⟩
            · exact Or.inl (by simp [hbest, hck, hdl])
  · have hlt : (0 : ℚ) < D + 5 := by linarith
    by_cases hnil : collect_clips results (D + 5) 0 = []
    · simp only [get_stock_footage_parallel, hnil, if_pos]
      constructor
      · intro _
        exact (collect_clips_nil_iff results (D + 5) 0 hlt).mp hnil
      · intro _; trivial
    · simp only [get_stock_footage_parallel, if_neg hnil]
      constructor
      · intro hfalse
        exact absurd hfalse (by simp)
      · intro hall
        exact absurd ((collect_clips_nil_iff results (D + 5) 0 hlt).mpr hall)
          hnil

/-- Witness for `download_failure_never_propagates`: one failed result
routes acquisition to the fallback. -/
theorem download_failure_never_propagates_witness :
    (get_stock_footage_parallel [(none, 0)] 10).2 = true :=
  ((download_failure_never_propagates (fun _ => false) (fun _ => false)
      true "city aerial" 0 10 (by norm_num) [(none, 0)]).2.2.2.2).mpr
    (by simp)

/-- The consumption loop never counts more results than were
submitted. -/
lemma accepted_results_count_le (results : List (Option String × ℚ)) :
    ∀ (target total : ℚ),
      accepted_results_count results target total ≤ results.length := by
  induction results with
  | nil => intro target total; simp [accepted_results_count]
  | cons r rest ih =>
    intro target total
    obtain ⟨p?, d⟩ := r
    cases p? with
    | some p =>
      simp only [accepted_results_count, List.length_cons]
      split_ifs with hbrk
      · omega
      · have h2 := ih target (total + d)
        omega
    | none =>
      simp only [accepted_results_count, List.length_cons]
      split_ifs with hbrk
      · omega
      · have h2 := ih target total
        omega

/-- If the loop stopped before consuming every result, the accumulated
source duration of the consumed prefix had reached the budget. -/
lemma accepted_results_budget (results : List (Option String × ℚ)) :
    ∀ (target total : ℚ),
      accepted_results_count results target total < results.length →
      target ≤ total +
        results_duration (results.take (accepted_results_count results target total)) := by
  induction results with
  | nil =>
    intro target total h
    simp [accepted_results_count] at h
  | cons r rest ih =>
    intro target total h
    obtain ⟨p?, d⟩ := r
    cases p? with
    | some p =>
      simp only [accepted_results_count, List.length_cons] at h ⊢
      by_cases hbrk : target ≤ total + d
      · rw [if_pos hbrk]
        have htake : ((some p, d) :: rest).take 1 = [(some p, d)] := rfl
        rw [htake]
        simp only [results_duration, List.map_cons, List.map_nil,
          List.sum_cons, List.sum_nil]
        linarith
      · rw [if_neg hbrk] at h ⊢
        have hlt : accepted_results_count rest target (total + d)
            < rest.length := by omega
        have hih := ih target (total + d) hlt
        rw [Nat.add_comm 1 (accepted_results_count rest target (total + d)),
          List.take_succ_cons]
        simp only [results_duration, List.map_cons, List.sum_cons] at hih ⊢
        linarith
    | none =>
      simp only [accepted_results_count, List.length_cons] at h ⊢
      by_cases hbrk : target ≤ total
      · rw [if_pos hbrk]
        have htake : ((none, d) :: rest).take 1 = [((none : Option String), d)] := rfl
        rw [htake]
        simp only [results_duration, List.map_cons, List.map_nil,
          List.sum_cons, List.sum_nil]
        simpa using hbrk
      · rw [if_neg hbrk] at h ⊢
        have hlt : accepted_results_count rest target total
            < rest.length := by omega
        have hih := ih target total hlt
        rw [Nat.add_comm 1 (accepted_results_count rest target total),
          List.take_succ_cons]
        simp only [results_duration, List.map_cons, List.sum_cons] at hih ⊢
        simpa using hih

/-- C9 counterexample: the coordinator does not cancel in-flight
downloads.  With two submitted downloads and a 10-second narration
(budget 15), the first completed result (100 s of footage) meets the
budget, so only one result is accepted - yet both downloads run to
completion, because leaving the `with ThreadPoolExecutor` block calls
`shutdown(wait=True)` without cancelling futures.  Cancellation would
require the number of completed downloads to equal the number of
accepted results. -/
theorem acquisition_no_cancellation_counterexample :
    accepted_results_count [(some "a", 100), (some "b", 1)] (10 + 5) 0 = 1 ∧
    completed_downloads_count [(some "a", 100), (some "b", 1)] = 2 ∧
    completed_downloads_count [(some "a", 100), (some "b", 1)] ≠
      accepted_results_count [(some "a", 100), (some "b", 1)] (10 + 5) 0 := by
  have h1 : accepted_results_count [(some "a", 100), (some "b", 1)] (10 + 5) 0
      = 1 := by
    simp only [accepted_results_count]
    norm_num
  exact ⟨h1, rfl, by rw [h1]; simp [completed_downloads_count]⟩

/-- C9 (amended): once the accumulated source duration reaches
`D + buffer` the coordinator stops accepting new results (it stops
early only when the accepted prefix's accumulated duration has met the
budget), but the remaining in-flight downloads are not cancelled: every
submitted download runs to completion and late results are discarded. -/
theorem acquisition_stops_but_never_cancels
    (results : List (Option String × ℚ)) (duration : ℚ) :
    completed_downloads_count results = results.length ∧
    accepted_results_count results (duration + 5) 0 ≤ results.length ∧
    (accepted_results_count results (duration + 5) 0 < results.length →
      duration + 5 ≤ results_duration
        (results.take (accepted_results_count results (duration + 5) 0))) := by
  refine ⟨rfl, accepted_results_count_le results (duration + 5) 0, ?_⟩
  intro hstop
  have := accepted_results_budget results (duration + 5) 0 hstop
  linarith

/-- Witness for `acquisition_stops_but_never_cancels`: with the
counterexample's inputs the accepted prefix covers the budget. -/
theorem acquisition_stops_but_never_cancels_witness :
    (10 : ℚ) + 5 ≤ results_duration
      (([(some "a", 100), (some "b", 1)] :
          List (Option String × ℚ)).take
        (accepted_results_count [(some "a", 100), (some "b", 1)] (10 + 5) 0)) :=
  (acquisition_stops_but_never_cancels [(some "a", 100), (some "b", 1)] 10).2.2
    (by simp only [accepted_results_count]; norm_num)
